import Mathlib

/-!
Verification of the Equihome json-simulation engine
(src/json-simulation/src/utils/calculations.ts and
src/json-simulation/src/index.ts) against its specification.

Numbers are embedded as exact rationals; time points, which are integer
year indices at every call site (the default is the cash-flow index),
are embedded as integers so that the power function of the source is
exact integer exponentiation.
-/

set_option maxRecDepth 4000

set_option allowUnsafeReducibility true
attribute [semireducible] Rat.add Rat.mul Rat.sub Rat.inv

/-- Convergence tolerance of the IRR Newton iteration (source constant
tolerance = 0.0000001). -/
def tol : ℚ := 1 / 10000000

/-- Integer-exponent power, the meaning of the source expression
Math.pow(base, e) for an integer exponent e. -/
def powQ (x : ℚ) : ℤ → ℚ
  | Int.ofNat n => x ^ n
  | Int.negSucc n => (x ^ (n + 1))⁻¹

/-- Net present value of the cash flows at discount rate guess, the
accumulation performed by the inner loop of calculateIrr:
npv += cashFlows[j] * Math.pow(1 + guess, -times[j]). -/
def npvQ (cashFlows : List ℚ) (times : List ℤ) (guess : ℚ) : ℚ :=
  (List.zip cashFlows times).foldl
    (fun acc ct => acc + ct.1 * powQ (1 + guess) (-ct.2)) 0

/-- Derivative accumulator of the inner loop of calculateIrr:
derivativeNpv -= times[j] * cashFlows[j] * Math.pow(1 + guess, -times[j] - 1). -/
def dNpvQ (cashFlows : List ℚ) (times : List ℤ) (guess : ℚ) : ℚ :=
  (List.zip cashFlows times).foldl
    (fun acc ct => acc - (ct.2 : ℚ) * ct.1 * powQ (1 + guess) (-ct.2 - 1)) 0

/-- One Newton update: newGuess = guess - npv / derivativeNpv. -/
def newtonNext (cashFlows : List ℚ) (times : List ℤ) (guess : ℚ) : ℚ :=
  guess - npvQ cashFlows times guess / dNpvQ cashFlows times guess

/-- The iteration of calculateIrr: at most fuel further iterations are
allowed (the source caps at maxIterations = 1000).  Each round checks
|npv| < tolerance (returning guess), computes the Newton update, checks
|newGuess - guess| < tolerance (returning newGuess), aborts with "no
solution" below -1, and otherwise continues. -/
def irrLoop (cashFlows : List ℚ) (times : List ℤ) : ℕ → ℚ → Option ℚ
  | 0, _ => none
  | fuel + 1, guess =>
    let npv := npvQ cashFlows times guess
    if |npv| < tol then some guess
    else
      let newGuess := newtonNext cashFlows times guess
      if |newGuess - guess| < tol then some newGuess
      else if newGuess < -1 then none
      else irrLoop cashFlows times fuel newGuess

/-- Default time points: the cash-flow indices (source:
cashFlows.map((_, i) => i)). -/
def defaultTimes (cashFlows : List ℚ) : List ℤ :=
  (List.range cashFlows.length).map Int.ofNat

/-- The effective time points used by calculateIrr: the supplied ones, or
the cash-flow indices. -/
def effTimes (cashFlows : List ℚ) (timePoints : Option (List ℤ)) : List ℤ :=
  timePoints.getD (defaultTimes cashFlows)

/-- calculateIrr of calculations.ts: guards (fewer than 2 cash flows, or a
length mismatch with the supplied time points) return null; otherwise
Newton iteration from the initial guess 0.1 with at most 1000 iterations. -/
def calculateIrr (cashFlows : List ℚ) (timePoints : Option (List ℤ)) : Option ℚ :=
  if cashFlows.length < 2 then none
  else
    let times := effTimes cashFlows timePoints
    if cashFlows.length ≠ times.length then none
    else irrLoop cashFlows times 1000 (1 / 10)

/-- calculateEquityMultiple of calculations.ts: totalReturns / initialInvestment. -/
def calculateEquityMultiple (totalReturns initialInvestment : ℚ) : ℚ :=
  totalReturns / initialInvestment

/-- The equity multiple of a cash-flow series as computed at every call
site of calculateEquityMultiple (index.ts, e.g. runSensitivityAnalysis):
cashFlows.slice(1).reduce((sum, cf) => sum + Math.max(0, cf), 0) over
Math.abs(cashFlows[0]). -/
def equityMultipleOfSeries (cashFlows : List ℚ) : ℚ :=
  calculateEquityMultiple
    ((cashFlows.drop 1).foldl (fun sum cf => sum + max 0 cf) 0)
    |cashFlows.headD 0|

/-- The loop of calculateMaxDrawdown: walk the remaining values carrying
the running peak and the running maximum drawdown; a value above the peak
replaces the peak, otherwise the drawdown (peak - value) / peak (0 when the
peak is not positive) is folded into the maximum. -/
def drawdownLoop : List ℚ → ℚ → ℚ → ℚ
  | [], _, maxDrawdown => maxDrawdown
  | v :: rest, peak, maxDrawdown =>
    if v > peak then drawdownLoop rest v maxDrawdown
    else
      let drawdown := if peak > 0 then (peak - v) / peak else 0
      drawdownLoop rest peak (max maxDrawdown drawdown)

/-- calculateMaxDrawdown of calculations.ts. -/
def calculateMaxDrawdown (values : List ℚ) : ℚ :=
  if values.length < 2 then 0
  else
    match values with
    | [] => 0
    | v :: rest => drawdownLoop rest v 0

/-- calculateCatchUpDistribution of calculations.ts, returning the pair
(lpProfit, gpProfit). -/
def calculateCatchUpDistribution (totalProfit catchUpPercentage lpPreferredReturn : ℚ) :
    ℚ × ℚ :=
  let lpProfit := min totalProfit lpPreferredReturn
  let remainingProfit := totalProfit - lpProfit
  let gpCatchUp := remainingProfit * (catchUpPercentage / 100)
  let lpCatchUp := remainingProfit - gpCatchUp
  (lpProfit + lpCatchUp, gpCatchUp)

/-- calculateVaR of calculations.ts: sort ascending, then read off the
element at index floor((1 - confidenceLevel / 100) * length).  An
out-of-range index is the undefined result of the source, embedded as
none. -/
def calculateVaR (returns : List ℚ) (confidenceLevel : ℚ) : Option ℚ :=
  let sortedReturns := returns.insertionSort (· ≤ ·)
  let index := Int.floor ((1 - confidenceLevel / 100) * (sortedReturns.length : ℚ))
  if index < 0 then none else sortedReturns.get? index.toNat

/-! ### Supporting lemmas for the IRR claims -/

/-- Every value the Newton loop returns was produced either by the residual
check (|npv| < tolerance at the returned guess) or by the step-size check
(the returned value is one Newton update whose distance from the previous
iterate is below the tolerance). -/
theorem irrLoop_some_cases (cashFlows : List ℚ) (times : List ℤ) :
    ∀ fuel guess r, irrLoop cashFlows times fuel guess = some r →
      |npvQ cashFlows times r| < tol ∨
        ∃ g, r = newtonNext cashFlows times g ∧ |r - g| < tol := by
  intro fuel
  induction fuel with
  | zero => intro g r h; simp [irrLoop] at h
  | succ n ih =>
    intro g r h
    rw [irrLoop] at h
    by_cases h1 : |npvQ cashFlows times g| < tol
    · simp only [h1, if_pos, Option.some.injEq] at h
      exact Or.inl (h ▸ h1)
    · simp only [h1, if_neg, if_false] at h
      by_cases h2 : |newtonNext cashFlows times g - g| < tol
      · simp only [h2, if_pos, Option.some.injEq] at h
        exact Or.inr ⟨g, h.symm, h ▸ h2⟩
      · simp only [h2, if_false] at h
        by_cases h3 : newtonNext cashFlows times g < -1
        · simp [h3] at h
        · simp only [h3, if_false] at h
          exact ih _ r h

/-- calculateIrr only ever returns a value produced by the Newton loop. -/
theorem calculateIrr_some (cashFlows : List ℚ) (timePoints : Option (List ℤ)) (r : ℚ)
    (h : calculateIrr cashFlows timePoints = some r) :
    irrLoop cashFlows (effTimes cashFlows timePoints) 1000 (1 / 10) = some r := by
  unfold calculateIrr at h
  by_cases h1 : cashFlows.length < 2
  · simp [h1] at h
  · simp only [h1, if_neg, if_false] at h
    by_cases h2 : cashFlows.length ≠ (effTimes cashFlows timePoints).length
    · simp [h2] at h
    · simpa [h2] using h

/-- The concrete cash-flow series refuting C1: a large scaling of the series
[-10, 12] at the default time points [0, 1]. -/
def c1cf : List ℚ := [-10000000000000000, 12000000000000000]

/-- The value calculateIrr returns on c1cf (1/5 - 6/(5 * 12^16), reached by
the step-size convergence check at the fourth Newton iteration). -/
def c1root : ℚ := 6162808629834547 / 30814043149172736

/-- C1 counterexample: calculateIrr converges on c1cf, but the net present
value of c1cf at the returned rate is about 0.054, not within the tolerance
1e-7 of zero: the step-size return path of the source never rechecks the
residual. -/
theorem C1_counterexample :
    calculateIrr c1cf none = some c1root ∧
      ¬ |npvQ c1cf (defaultTimes c1cf) c1root| ≤ tol := by
  constructor
  · decide
  · decide

/-- C1 (amended): for every cash-flow series for which calculateIrr returns
a rate r, either the net present value of the series discounted at r is
within the tolerance 1e-7 of zero, or r is a Newton update lying within
1e-7 of the previous iterate (the residual-free step-size return path). -/
theorem C1_irr_npv_small_or_small_step (cashFlows : List ℚ)
    (timePoints : Option (List ℤ)) (r : ℚ)
    (h : calculateIrr cashFlows timePoints = some r) :
    |npvQ cashFlows (effTimes cashFlows timePoints) r| < tol ∨
      ∃ g, r = newtonNext cashFlows (effTimes cashFlows timePoints) g ∧ |r - g| < tol :=
  irrLoop_some_cases cashFlows (effTimes cashFlows timePoints) 1000 (1 / 10) r
    (calculateIrr_some cashFlows timePoints r h)

/-- Witness for C1: the theorem applied to the series [-10, 11] with time
points [0, 1], where calculateIrr returns 1/10. -/
theorem C1_witness :
    |npvQ [-10, 11] (effTimes [-10, 11] (some [0, 1])) (1 / 10)| < tol ∨
      ∃ g, (1 / 10 : ℚ) = newtonNext [-10, 11] (effTimes [-10, 11] (some [0, 1])) g ∧
        |1 / 10 - g| < tol :=
  C1_irr_npv_small_or_small_step [-10, 11] (some [0, 1]) (1 / 10) (by decide)

/-! ### C5: catch-up distribution conservation -/

/-- C5: for every totalProfit, catchUpPercentage and lpPreferredReturn, the
investor share and the manager share returned by
calculateCatchUpDistribution sum exactly to totalProfit (no leakage). -/
theorem C5_catchup_conservation (totalProfit catchUpPercentage lpPreferredReturn : ℚ) :
    (calculateCatchUpDistribution totalProfit catchUpPercentage lpPreferredReturn).1 +
      (calculateCatchUpDistribution totalProfit catchUpPercentage lpPreferredReturn).2 =
      totalProfit := by
  unfold calculateCatchUpDistribution
  ring

/-! ### C6: max drawdown bounds -/

/-- The drawdown loop only ever grows its accumulator. -/
theorem drawdownLoop_le (l : List ℚ) :
    ∀ peak m, m ≤ drawdownLoop l peak m := by
  induction l with
  | nil => intro p m; simp [drawdownLoop]
  | cons v rest ih =>
    intro p m
    rw [drawdownLoop]
    by_cases h : v > p
    · simpa [h] using ih v m
    · simp only [h, if_false]
      exact le_trans (le_max_left m _) (ih p _)

/-- Over non-negative values the drawdown loop never exceeds 1 when its
accumulator does not. -/
theorem drawdownLoop_le_one (l : List ℚ) :
    ∀ peak m, (∀ v ∈ l, 0 ≤ v) → m ≤ 1 → drawdownLoop l peak m ≤ 1 := by
  induction l with
  | nil => intro p m _ hm; simpa [drawdownLoop] using hm
  | cons v rest ih =>
    intro p m hl hm
    have hv : 0 ≤ v := hl v (List.mem_cons_self v rest)
    have hrest : ∀ w ∈ rest, 0 ≤ w := fun w hw => hl w (List.mem_cons_of_mem v hw)
    rw [drawdownLoop]
    by_cases h : v > p
    · simpa [h] using ih v m hrest hm
    · simp only [h, if_false]
      refine ih p _ hrest (max_le hm ?_)
      by_cases hp : p > 0
      · simp only [hp, if_pos]
        rw [div_le_one hp]
        linarith
      · simp [hp]

/-- Along a non-decreasing chain the drawdown loop never raises a
non-negative accumulator. -/
theorem drawdownLoop_chain (l : List ℚ) :
    ∀ peak m, List.Chain' (· ≤ ·) (peak :: l) → 0 ≤ m →
      drawdownLoop l peak m = m := by
  induction l with
  | nil => intro p m _ _; simp [drawdownLoop]
  | cons v rest ih =>
    intro p m hchain hm
    have hpv : p ≤ v := (List.chain'_cons.1 hchain).1
    have htail : List.Chain' (· ≤ ·) (v :: rest) := (List.chain'_cons.1 hchain).2
    rw [drawdownLoop]
    by_cases h : v > p
    · simp only [h, if_pos]
      exact ih v m htail hm
    · have hvp : v = p := le_antisymm (not_lt.1 h) hpv
      simp only [h, if_false]
      have hd : (if p > 0 then (p - v) / p else 0) = 0 := by
        subst hvp
        by_cases hp : v > 0 <;> simp [hp]
      rw [hd, max_eq_left hm]
      exact ih p m (hvp ▸ htail) hm

/-- C6 counterexample: on the value series [1, -1] the source returns a
maximum drawdown of 2, outside the closed interval [0, 1]. -/
theorem C6_counterexample :
    calculateMaxDrawdown [1, -1] = 2 ∧ ¬ calculateMaxDrawdown [1, -1] ≤ 1 := by
  constructor
  · decide
  · decide

/-- C6 (amended): the maximum drawdown is always non-negative, it is at most
1 for every value series with non-negative entries (the counterexample
[1, -1] shows the upper bound fails once values may be negative), and it is
exactly 0 for every monotonically non-decreasing value series. -/
theorem C6_max_drawdown_bounds (values : List ℚ) :
    0 ≤ calculateMaxDrawdown values ∧
      ((∀ v ∈ values, 0 ≤ v) → calculateMaxDrawdown values ≤ 1) ∧
      (List.Chain' (· ≤ ·) values → calculateMaxDrawdown values = 0) := by
  unfold calculateMaxDrawdown
  by_cases hlen : values.length < 2
  · simp [hlen]
  · simp only [hlen, if_false]
    match values with
    | [] => simp
    | v :: rest =>
      refine ⟨drawdownLoop_le rest v 0, fun hnn => ?_, fun hchain => ?_⟩
      · exact drawdownLoop_le_one rest v 0
          (fun w hw => hnn w (List.mem_cons_of_mem v hw)) zero_le_one
      · exact drawdownLoop_chain rest v 0 hchain le_rfl

/-- Witness for C6: the amended theorem applied to the non-negative series
[4, 2, 3] (drawdown bounds) and the non-decreasing series [1, 2, 3]
(zero drawdown). -/
theorem C6_witness :
    0 ≤ calculateMaxDrawdown [4, 2, 3] ∧ calculateMaxDrawdown [4, 2, 3] ≤ 1 ∧
      calculateMaxDrawdown [1, 2, 3] = 0 :=
  ⟨(C6_max_drawdown_bounds [4, 2, 3]).1,
    (C6_max_drawdown_bounds [4, 2, 3]).2.1 (by decide),
    (C6_max_drawdown_bounds [1, 2, 3]).2.2 (by simp [List.chain'_cons]; norm_num)⟩

/-! ### C7: equity multiple under uniform scaling -/

/-- Scaling every cash flow by a non-negative factor scales the positive
part sum by the same factor. -/
theorem foldl_posPart_map_mul (k : ℚ) (hk : 0 ≤ k) (l : List ℚ) :
    ∀ a, (l.map (fun c => k * c)).foldl (fun sum cf => sum + max 0 cf) (k * a) =
      k * l.foldl (fun sum cf => sum + max 0 cf) a := by
  induction l with
  | nil => intro a; simp
  | cons c t ih =>
    intro a
    simp only [List.map_cons, List.foldl_cons]
    have hmax : max 0 (k * c) = k * max 0 c := by
      rw [mul_max_of_nonneg 0 c hk, mul_zero]
    rw [hmax, ← mul_add]
    exact ih (a + max 0 c)

/-- C7 counterexample: on the series [-1, 2] with scale factor k = 2 the
equity multiple of the scaled series equals the original equity multiple 2,
not k times it (which would be 4). -/
theorem C7_counterexample :
    ¬ equityMultipleOfSeries ([-1, 2].map (fun c => 2 * c)) =
        2 * equityMultipleOfSeries [-1, 2] := by
  decide

/-- C7 (amended): the equity multiple is invariant under a uniform positive
scaling of all cash flows; both the positive-flow sum and the initial
investment scale by k, so the quotient is unchanged rather than multiplied
by k. -/
theorem C7_equity_multiple_scale_invariant (cashFlows : List ℚ) (k : ℚ) (hk : 0 < k) :
    equityMultipleOfSeries (cashFlows.map (fun c => k * c)) =
      equityMultipleOfSeries cashFlows := by
  unfold equityMultipleOfSeries calculateEquityMultiple
  have hd : (cashFlows.map (fun c => k * c)).drop 1 =
      (cashFlows.drop 1).map (fun c => k * c) := (List.map_drop ..).symm
  have hh : (cashFlows.map (fun c => k * c)).headD 0 = k * cashFlows.headD 0 := by
    cases cashFlows with
    | nil => simp
    | cons c t => simp
  rw [hd, hh]
  have hnum := foldl_posPart_map_mul k (le_of_lt hk) (cashFlows.drop 1) 0
  rw [mul_zero] at hnum
  rw [hnum, abs_mul, abs_of_pos hk]
  exact mul_div_mul_left _ _ (ne_of_gt hk)

/-- Witness for C7: the amended theorem applied to [-1, 2, 3] with k = 3. -/
theorem C7_witness :
    equityMultipleOfSeries ([-1, 2, 3].map (fun c => 3 * c)) =
      equityMultipleOfSeries [-1, 2, 3] :=
  C7_equity_multiple_scale_invariant [-1, 2, 3] 3 (by norm_num)

/-! ### C10: calculateIrr guard clauses -/

/-- C10: for every cashFlows array with fewer than 2 elements, and for every
input whose supplied timePoints length differs from the cashFlows length,
calculateIrr returns null; both guards fire before the Newton loop. -/
theorem C10_irr_guards (cashFlows : List ℚ) (timePoints : Option (List ℤ))
    (h : cashFlows.length < 2 ∨
      ∃ ts, timePoints = some ts ∧ ts.length ≠ cashFlows.length) :
    calculateIrr cashFlows timePoints = none := by
  unfold calculateIrr
  rcases h with h1 | ⟨ts, rfl, hne⟩
  · simp [h1]
  · by_cases h1 : cashFlows.length < 2
    · simp [h1]
    · have h2 : cashFlows.length ≠ (effTimes cashFlows (some ts)).length := by
        simpa [effTimes] using Ne.symm hne
      simp [h1, h2]

/-- Witness for C10: a 2-element series with a 3-element timePoints array
returns null. -/
theorem C10_witness : calculateIrr [1, -1] (some [0, 1, 2]) = none :=
  C10_irr_guards [1, -1] (some [0, 1, 2]) (Or.inr ⟨[0, 1, 2], rfl, by decide⟩)

/-! ### C9: calculateVaR index safety -/

/-- C9: with a non-empty returns array and a confidence level c with
0 < c ≤ 100, the index floor((1 - c/100) * length) is within bounds and
calculateVaR returns an element of the input array; with c = 0, c < 0 or an
empty array the index access is out of bounds and the result is the
undefined value (none). -/
theorem C9_var_bounds (returns : List ℚ) (c : ℚ) :
    (0 < c → c ≤ 100 → returns ≠ [] →
      ∃ v, calculateVaR returns c = some v ∧ v ∈ returns) ∧
      ((c ≤ 0 ∨ returns = []) → calculateVaR returns c = none) := by
  unfold calculateVaR
  set s := returns.insertionSort (· ≤ ·) with hs
  have hlen : s.length = returns.length := List.length_insertionSort _ _
  constructor
  · intro hc0 hc100 hne
    have hn : 0 < s.length := by
      rw [hlen]
      exact List.length_pos.2 hne
    have hx0 : (0 : ℚ) ≤ 1 - c / 100 := by linarith
    have hx1 : 1 - c / 100 < 1 := by linarith
    have hidx0 : 0 ≤ Int.floor ((1 - c / 100) * (s.length : ℚ)) :=
      Int.floor_nonneg.2 (mul_nonneg hx0 (Nat.cast_nonneg _))
    have hidxlt : Int.floor ((1 - c / 100) * (s.length : ℚ)) < (s.length : ℤ) := by
      rw [Int.floor_lt]
      push_cast
      calc (1 - c / 100) * (s.length : ℚ) < 1 * (s.length : ℚ) := by
            exact mul_lt_mul_of_pos_right hx1 (by exact_mod_cast hn)
        _ = (s.length : ℚ) := one_mul _
    have hnotneg : ¬ Int.floor ((1 - c / 100) * (s.length : ℚ)) < 0 := not_lt.2 hidx0
    have htoNat : (Int.floor ((1 - c / 100) * (s.length : ℚ))).toNat < s.length := by
      omega
    refine ⟨s.get ⟨_, htoNat⟩, ?_, ?_⟩
    · simp only [hnotneg, if_false]
      exact List.get?_eq_get htoNat
    · exact (List.perm_insertionSort (· ≤ ·) returns).subset (List.get_mem s _ _)
  · intro h
    rcases h with hc | hempty
    · have hx1 : (1 : ℚ) ≤ 1 - c / 100 := by linarith
      have hge : (s.length : ℚ) ≤ (1 - c / 100) * (s.length : ℚ) :=
        le_mul_of_one_le_left (Nat.cast_nonneg _) hx1
      have hidxge : (s.length : ℤ) ≤ Int.floor ((1 - c / 100) * (s.length : ℚ)) :=
        Int.le_floor.2 (by exact_mod_cast hge)
      have hnotneg : ¬ Int.floor ((1 - c / 100) * (s.length : ℚ)) < 0 := by
        refine not_lt.2 (le_trans ?_ hidxge)
        exact_mod_cast Nat.zero_le _
      simp only [hnotneg, if_false]
      refine List.get?_eq_none.2 ?_
      omega
    · have hsnil : s = [] := by
        rw [hs, hempty]
        rfl
      subst hempty
      simp [hsnil]

/-- Witness for C9: applied to the returns [3, -5, 2] at confidence 95, the
result is a defined element of the input. -/
theorem C9_witness :
    ∃ v, calculateVaR [3, -5, 2] 95 = some v ∧ v ∈ ([3, -5, 2] : List ℚ) :=
  (C9_var_bounds [3, -5, 2] 95).1 (by norm_num) (by norm_num) (by simp)

/-! ### C8: percentile endpoints and monotonicity -/

/-- calculatePercentile of calculations.ts: sort ascending, compute the
fractional index (percentile / 100) * (length - 1); at an integral index
return the element there (the source checks Number.isInteger, embedded as
den = 1), otherwise interpolate linearly between the floor and ceiling
positions. -/
def calculatePercentile (values : List ℚ) (percentile : ℚ) : ℚ :=
  let sorted := values.insertionSort (· ≤ ·)
  let index := (percentile / 100) * ((sorted.length : ℚ) - 1)
  if index.den = 1 then
    sorted.getD index.num.toNat 0
  else
    let lower := (Int.floor index).toNat
    let upper := (Int.ceil index).toNat
    let weight := index - Int.floor index
    sorted.getD lower 0 * (1 - weight) + sorted.getD upper 0 * weight

/-- The interpolation formula of the non-integral branch of
calculatePercentile, as a function of the fractional index. -/
def interpAt (s : List ℚ) (x : ℚ) : ℚ :=
  s.getD (Int.floor x).toNat 0 * (1 - (x - Int.floor x)) +
    s.getD (Int.ceil x).toNat 0 * (x - Int.floor x)

/-- In-bounds getD is get. -/
theorem getD_of_lt (l : List ℚ) (i : ℕ) (h : i < l.length) :
    l.getD i 0 = l.get ⟨i, h⟩ := by
  simp [List.getD_eq_getElem?_getD, List.getElem?_eq_getElem h]

/-- In a sorted list, getD at 0 is monotone over in-bounds indices. -/
theorem getD_mono_sorted {s : List ℚ} (hs : List.Sorted (· ≤ ·) s) {i j : ℕ}
    (hij : i ≤ j) (hj : j < s.length) : s.getD i 0 ≤ s.getD j 0 := by
  have hi : i < s.length := lt_of_le_of_lt hij hj
  rw [getD_of_lt s i hi, getD_of_lt s j hj]
  rcases lt_or_eq_of_le hij with h | h
  · exact List.pairwise_iff_get.1 hs ⟨i, hi⟩ ⟨j, hj⟩ h
  · subst h
    rfl

/-- For an index off the grid the ceiling is the floor plus one. -/
theorem ceil_eq_floor_add_one_of_not_int {x : ℚ} (hx : x ≠ Int.floor x) :
    Int.ceil x = Int.floor x + 1 := by
  have h1 := Int.ceil_le_floor_add_one x
  have h2 : Int.floor x < Int.ceil x := by
    by_contra hcon
    have h3 : Int.ceil x ≤ Int.floor x := not_lt.1 hcon
    have h4 : x ≤ (Int.floor x : ℚ) := le_trans (Int.le_ceil x) (by exact_mod_cast h3)
    exact hx (le_antisymm h4 (Int.floor_le x))
  omega

/-- The integral and the interpolating branch of calculatePercentile agree
with the interpolation formula. -/
theorem percentileBranch_eq (s : List ℚ) (x : ℚ) :
    (if x.den = 1 then s.getD x.num.toNat 0
      else s.getD (Int.floor x).toNat 0 * (1 - (x - Int.floor x)) +
        s.getD (Int.ceil x).toNat 0 * (x - Int.floor x)) = interpAt s x := by
  by_cases hden : x.den = 1
  · have hxz : ((x.num : ℚ)) = x := Rat.coe_int_num_of_den_eq_one hden
    have hfl : Int.floor x = x.num := by
      conv_lhs => rw [← hxz]
      exact Int.floor_intCast x.num
    have hcl : Int.ceil x = x.num := by
      conv_lhs => rw [← hxz]
      exact Int.ceil_intCast x.num
    have hw : x - ((Int.floor x : ℤ) : ℚ) = 0 := by
      rw [hfl, hxz, sub_self]
    simp only [hden, if_pos]
    unfold interpAt
    rw [hw, hfl, hcl]
    simp
  · simp [hden, interpAt]

/-- Both branches of calculatePercentile compute the interpolation formula. -/
theorem calculatePercentile_eq_interpAt (values : List ℚ) (p : ℚ) :
    calculatePercentile values p =
      interpAt (values.insertionSort (· ≤ ·))
        ((p / 100) * (((values.insertionSort (· ≤ ·)).length : ℚ) - 1)) := by
  simp only [calculatePercentile]
  exact percentileBranch_eq _ _

/-- A fractional index between 0 and length - 1 has its floor and ceiling
in bounds. -/
theorem index_bounds {s : List ℚ} {x : ℚ} (h0 : 0 ≤ x)
    (hx : x ≤ (s.length : ℚ) - 1) :
    (Int.floor x).toNat < s.length ∧ (Int.ceil x).toNat < s.length ∧
      (Int.floor x).toNat ≤ (Int.ceil x).toNat := by
  have hn : 1 ≤ s.length := by
    by_contra hcon
    have hz : s.length = 0 := by omega
    rw [hz] at hx
    norm_num at hx
    linarith
  have hceil : Int.ceil x ≤ (s.length : ℤ) - 1 := by
    rw [Int.ceil_le]
    push_cast
    linarith
  have hfloor0 : 0 ≤ Int.floor x := Int.floor_nonneg.2 h0
  have hfc : Int.floor x ≤ Int.ceil x := Int.floor_le_ceil x
  omega

/-- The fractional index of calculatePercentile lies between the values at
its floor and ceiling positions. -/
theorem interpAt_between {s : List ℚ} (hs : List.Sorted (· ≤ ·) s) {x : ℚ}
    (h0 : 0 ≤ x) (hx : x ≤ (s.length : ℚ) - 1) :
    s.getD (Int.floor x).toNat 0 ≤ interpAt s x ∧
      interpAt s x ≤ s.getD (Int.ceil x).toNat 0 := by
  obtain ⟨hfloorLt, hceilLt, hfc⟩ := index_bounds h0 hx
  have hab : s.getD (Int.floor x).toNat 0 ≤ s.getD (Int.ceil x).toNat 0 :=
    getD_mono_sorted hs hfc hceilLt
  have hw0 : 0 ≤ x - Int.floor x := sub_nonneg.2 (Int.floor_le x)
  have hw1 : x - Int.floor x ≤ 1 := by
    have := Int.lt_floor_add_one x
    push_cast at this ⊢
    linarith
  unfold interpAt
  constructor
  · nlinarith [hab, hw0, hw1]
  · nlinarith [hab, hw0, hw1]

/-- Monotonicity of the interpolation formula over a sorted list. -/
theorem interpAt_mono {s : List ℚ} (hs : List.Sorted (· ≤ ·) s) {x y : ℚ}
    (h0 : 0 ≤ x) (hxy : x ≤ y) (hy : y ≤ (s.length : ℚ) - 1) :
    interpAt s x ≤ interpAt s y := by
  have h0y : 0 ≤ y := le_trans h0 hxy
  have hxle : x ≤ (s.length : ℚ) - 1 := le_trans hxy hy
  obtain ⟨hflxLt, hclxLt, hfcx⟩ := index_bounds h0 hxle
  obtain ⟨hflyLt, hclyLt, hfcy⟩ := index_bounds h0y hy
  have hfl : Int.floor x ≤ Int.floor y := Int.floor_le_floor hxy
  rcases lt_or_eq_of_le hfl with hlt | heq
  · -- the indices straddle at least one grid point
    have hceilx : Int.ceil x ≤ Int.floor y := by
      have := Int.ceil_le_floor_add_one x
      omega
    have h1 : interpAt s x ≤ s.getD (Int.ceil x).toNat 0 :=
      (interpAt_between hs h0 hxle).2
    have h2 : s.getD (Int.ceil x).toNat 0 ≤ s.getD (Int.floor y).toNat 0 := by
      refine getD_mono_sorted hs ?_ hflyLt
      have hcx0 : 0 ≤ Int.ceil x := le_trans (Int.floor_nonneg.2 h0) (Int.floor_le_ceil x)
      have hfy0 : 0 ≤ Int.floor y := Int.floor_nonneg.2 h0y
      omega
    have h3 : s.getD (Int.floor y).toNat 0 ≤ interpAt s y :=
      (interpAt_between hs h0y hy).1
    linarith
  · -- same floor
    by_cases hxint : x = Int.floor x
    · -- x sits on the grid: interpAt s x is the floor value
      have hxval : interpAt s x = s.getD (Int.floor x).toNat 0 := by
        unfold interpAt
        rw [← hxint, sub_self]
        ring
      rw [hxval, heq]
      exact (interpAt_between hs h0y hy).1
    · -- both x and y sit strictly inside the same cell
      have hxlt : (Int.floor x : ℚ) < x :=
        lt_of_le_of_ne (Int.floor_le x) (fun h => hxint h.symm)
      have hylt : (Int.floor y : ℚ) < y := by
        rw [← heq]
        exact lt_of_lt_of_le hxlt hxy
      have hyint : y ≠ (Int.floor y : ℚ) := fun h => absurd (h ▸ hylt) (lt_irrefl _)
      have hceq : Int.ceil x = Int.ceil y := by
        rw [ceil_eq_floor_add_one_of_not_int hxint,
          ceil_eq_floor_add_one_of_not_int hyint, heq]
      have hab : s.getD (Int.floor x).toNat 0 ≤ s.getD (Int.ceil x).toNat 0 :=
        getD_mono_sorted hs hfcx hclxLt
      unfold interpAt
      rw [← heq, ← hceq]
      nlinarith [hab, hxy]

/-- C8: for every non-empty values array, calculatePercentile at 0 is the
minimum of the values, at 100 the maximum, and calculatePercentile is
monotonically non-decreasing in the percentile argument over [0, 100]. -/
theorem C8_percentile_endpoints_mono (values : List ℚ) (p q : ℚ)
    (hne : values ≠ []) (hp0 : 0 ≤ p) (hpq : p ≤ q) (hq100 : q ≤ 100) :
    (calculatePercentile values 0 ∈ values ∧
        ∀ v ∈ values, calculatePercentile values 0 ≤ v) ∧
      (calculatePercentile values 100 ∈ values ∧
        ∀ v ∈ values, v ≤ calculatePercentile values 100) ∧
      calculatePercentile values p ≤ calculatePercentile values q := by
  set s := values.insertionSort (· ≤ ·) with hsdef
  have hsorted : List.Sorted (· ≤ ·) s := List.sorted_insertionSort _ _
  have hperm : List.Perm s values := List.perm_insertionSort _ _
  have hlen : s.length = values.length := hperm.length_eq
  have hn : 1 ≤ s.length := by
    rw [hlen]
    exact List.length_pos.2 hne
  have hmin : calculatePercentile values 0 = s.getD 0 0 := by
    unfold calculatePercentile
    norm_num
  have hmax : calculatePercentile values 100 = s.getD (s.length - 1) 0 := by
    simp only [calculatePercentile]
    rw [← hsdef]
    have hidx : ((100 : ℚ) / 100) * ((s.length : ℚ) - 1) = ((s.length - 1 : ℕ) : ℚ) := by
      push_cast [hn]
      ring
    rw [hidx]
    simp [Rat.den_natCast, Rat.num_natCast]
  refine ⟨⟨?_, ?_⟩, ⟨?_, ?_⟩, ?_⟩
  · rw [hmin, getD_of_lt s 0 (by omega)]
    exact hperm.subset (List.get_mem s 0 _)
  · intro v hv
    rw [hmin]
    obtain ⟨⟨j, hj⟩, rfl⟩ := List.get_of_mem (hperm.mem_iff.2 hv)
    rw [getD_of_lt s 0 (by omega)]
    rcases Nat.eq_zero_or_pos j with rfl | hjpos
    · rfl
    · exact List.pairwise_iff_get.1 hsorted ⟨0, by omega⟩ ⟨j, hj⟩ hjpos
  · rw [hmax, getD_of_lt s (s.length - 1) (by omega)]
    exact hperm.subset (List.get_mem s _ _)
  · intro v hv
    rw [hmax]
    obtain ⟨⟨j, hj⟩, rfl⟩ := List.get_of_mem (hperm.mem_iff.2 hv)
    rw [getD_of_lt s (s.length - 1) (by omega)]
    rcases lt_or_eq_of_le (Nat.le_sub_one_of_lt hj) with h | h
    · exact List.pairwise_iff_get.1 hsorted ⟨j, hj⟩ ⟨s.length - 1, by omega⟩ h
    · have heqf : (⟨j, hj⟩ : Fin s.length) = ⟨s.length - 1, by omega⟩ := Fin.ext h
      rw [heqf]
  · rw [calculatePercentile_eq_interpAt values p, calculatePercentile_eq_interpAt values q,
      ← hsdef]
    have hfrac : (0 : ℚ) ≤ (s.length : ℚ) - 1 := by
      have : (1 : ℚ) ≤ (s.length : ℚ) := by exact_mod_cast hn
      linarith
    refine interpAt_mono hsorted ?_ ?_ ?_
    · exact mul_nonneg (by linarith) hfrac
    · exact mul_le_mul_of_nonneg_right (by linarith) hfrac
    · calc (q / 100) * ((s.length : ℚ) - 1) ≤ 1 * ((s.length : ℚ) - 1) :=
          mul_le_mul_of_nonneg_right (by linarith) hfrac
        _ = (s.length : ℚ) - 1 := one_mul _

/-- Witness for C8: the theorem applied to the values [3, 1, 2] with
percentiles 25 and 75. -/
theorem C8_witness :
    calculatePercentile [3, 1, 2] 25 ≤ calculatePercentile [3, 1, 2] 75 :=
  (C8_percentile_endpoints_mono [3, 1, 2] 25 75 (by simp) (by norm_num)
    (by norm_num) (by norm_num)).2.2

/-! ### C4: the memoized IRR and its cache key -/

/-- The string a JS number renders to inside Array.join for the inputs the
engine passes: integer-valued rationals print as their integer part. -/
def jsNumString (q : ℚ) : String :=
  if q.den = 1 then toString q.num else toString q

/-- The cache key built by memoizedIrr (index.ts):
the literal irr- prefix, the joined cash flows, a dash, and the joined time
points (empty when absent). -/
def irrKey (cashFlows : List ℚ) (timePoints : Option (List ℤ)) : String :=
  "irr-" ++ String.intercalate "-" (cashFlows.map jsNumString) ++ "-" ++
    (timePoints.map (fun ts =>
      String.intercalate "-" (ts.map (fun t => toString t)))).getD ""

/-- The shared memoization cache of the worker (index.ts const cache). -/
abbrev IrrCache := List (String × Option ℚ)

/-- One call of the memoized IRR (index.ts memoize applied to calculateIrr):
a key hit returns the cached value, a miss computes calculateIrr and stores
the result under the key. -/
def memoizedIrrCall (cache : IrrCache) (cashFlows : List ℚ)
    (timePoints : Option (List ℤ)) : Option ℚ × IrrCache :=
  let key := irrKey cashFlows timePoints
  match cache.lookup key with
  | some v => (v, cache)
  | none =>
    let result := calculateIrr cashFlows timePoints
    (result, (key, result) :: cache)

/-- C4: memoization is not transparent.  The join-built cache key collides
across the argument boundary: the series [-10, 11] with time points [0, 1]
and the distinct series [-10, 11, 0] with time points [1] both produce the
key irr--10-11-0-1.  After the first call is cached, the memoized IRR of
the second input returns the cached 1/10 while a direct calculateIrr on it
returns null (length mismatch). -/
theorem C4_memo_not_transparent :
    irrKey [-10, 11] (some [0, 1]) = irrKey [-10, 11, 0] (some [1]) ∧
      calculateIrr [-10, 11, 0] (some [1]) = none ∧
      (memoizedIrrCall (memoizedIrrCall [] [-10, 11] (some [0, 1])).2
          [-10, 11, 0] (some [1])).1 = some (1 / 10) := by
  refine ⟨?_, ?_, ?_⟩
  · decide
  · decide
  · decide

/-! ### C2: the simulation worker message protocol -/

/-- The response type strings of the worker (index.ts SimulationResponseType
and the literal type fields of its postMessage calls). -/
inductive RespType
  | monteCarloResults
  | portfolioProjections
  | sensitivityResults
  | comparisonResults
  | progress
  | error
  | cancelled
  | cacheCleared
deriving DecidableEq, Repr

/-- The data object of a progress response (index.ts ProgressData). -/
structure ProgressData where
  task : String
  progress : ℤ
  status : Option String := none
  message : Option String := none
  currentChunk : Option ℕ := none
  totalChunks : Option ℕ := none
  processedSimulations : Option ℕ := none
  totalSimulations : Option ℕ := none
deriving DecidableEq, Repr

/-- The data payload of a worker response. -/
inductive ResponseData
  | progressData (p : ProgressData)
  | simResults (results : List (List ℚ))
  | textMessage (message : String)
  | empty
deriving DecidableEq, Repr

/-- A worker response (index.ts WorkerResponse); chunk progress messages
are posted without an id, every other response carries the request id. -/
structure WorkerResponse where
  rtype : RespType
  id : Option String
  data : ResponseData
deriving DecidableEq, Repr

/-- The parameters of a monteCarlo request (index.ts
runMonteCarloSimulation), with the source defaults for chunkSize and
reportProgress. -/
structure MonteCarloParams where
  initialInvestment : ℚ
  timeHorizon : ℕ
  interestRate : ℚ
  propertyAppreciation : ℚ
  defaultRate : ℚ
  volatility : ℚ
  numSimulations : ℕ
  chunkSize : ℕ := 1000
  reportProgress : Bool := true
deriving DecidableEq, Repr

/-- The messages the worker handles that the claims exercise (index.ts
self.onmessage); the sensitivity and comparison requests carry
function-valued payloads and are not needed here. -/
inductive WorkerMessage
  | monteCarlo (id : Option String) (params : MonteCarloParams)
  | clearCache (id : Option String)
  | cancel (id : Option String)
  | unknownType (id : Option String) (t : String)

/-- JS Math.round: half-values round toward positive infinity. -/
def jsRound (q : ℚ) : ℤ := Int.floor (q + 1 / 2)

/-- generateRandomValue of calculations.ts applied to one draw of the
normal oracle: expectedValue * (1 + (volatility * randomNormal) / 100).
The Box-Muller draw over Math.random is modelled as the supplied oracle
value. -/
def generateRandomValue (expectedValue volatility randomNormal : ℚ) : ℚ :=
  expectedValue * (1 + (volatility * randomNormal) / 100)

/-- The per-year growth loop of one Monte Carlo path:
simValues[year] = simValues[year - 1] * (1 + effectiveReturn), collecting
initial value and the following years. -/
def growLoop (value effectiveReturn : ℚ) : ℕ → List ℚ
  | 0 => [value]
  | years + 1 => value :: growLoop (value * (1 + effectiveReturn)) effectiveReturn years

/-- One simulation of runMonteCarloSimulation: three stochastic draws
(interest, appreciation, default; the oracle is indexed by draw), the
combined effective return, and the simulated value path over the horizon. -/
def runOneSim (rand : ℕ → ℚ) (p : MonteCarloParams) (sim : ℕ) : List ℚ :=
  let randomInterestRate := generateRandomValue p.interestRate p.volatility (rand (3 * sim))
  let randomPropertyAppreciation :=
    generateRandomValue p.propertyAppreciation p.volatility (rand (3 * sim + 1))
  let randomDefaultRate := generateRandomValue p.defaultRate p.volatility (rand (3 * sim + 2))
  let effectiveReturn :=
    (randomInterestRate + randomPropertyAppreciation - randomDefaultRate) / 100
  growLoop p.initialInvestment effectiveReturn p.timeHorizon

/-- runMonteCarloSimulation of index.ts: the simulations are processed in
chunks of chunkSize; after each chunk a progress response (without id) is
posted when reportProgress is set.  Returns the collected result paths and
the posted progress responses in order. -/
def runMonteCarloSimulation (rand : ℕ → ℚ) (p : MonteCarloParams) :
    List (List ℚ) × List WorkerResponse :=
  let numChunks := (p.numSimulations + p.chunkSize - 1) / p.chunkSize
  (List.range numChunks).foldl
    (fun acc chunk =>
      let startSim := chunk * p.chunkSize
      let endSim := min ((chunk + 1) * p.chunkSize) p.numSimulations
      let chunkResults := (List.range (endSim - startSim)).map
        (fun k => runOneSim rand p (startSim + k))
      let results := acc.1 ++ chunkResults
      if p.reportProgress then
        (results, acc.2 ++ [{
          rtype := RespType.progress
          id := none
          data := ResponseData.progressData {
            task := "monteCarlo"
            progress := jsRound (((chunk + 1 : ℕ) : ℚ) / (numChunks : ℚ) * 100)
            currentChunk := some (chunk + 1)
            totalChunks := some numChunks
            processedSimulations := some (min ((chunk + 1) * p.chunkSize) p.numSimulations)
            totalSimulations := some p.numSimulations } }])
      else (results, acc.2))
    ([], [])

/-- self.onmessage of index.ts for one message: the switch over the message
type, returning the updated cache and the posted responses in order.  A
monteCarlo request posts the started progress, the chunk progress messages
and then monteCarloResults; there is no cancellation check anywhere in the
run. -/
def handleMessage (rand : ℕ → ℚ) (cache : IrrCache) (msg : WorkerMessage) :
    IrrCache × List WorkerResponse :=
  match msg with
  | WorkerMessage.monteCarlo id p =>
    let started : WorkerResponse := {
      rtype := RespType.progress
      id := id
      data := ResponseData.progressData {
        task := "monteCarlo"
        progress := 0
        status := some "started"
        message := some "Starting Monte Carlo simulation..." } }
    let run := runMonteCarloSimulation rand p
    (cache, started :: run.2 ++ [{
      rtype := RespType.monteCarloResults
      id := id
      data := ResponseData.simResults run.1 }])
  | WorkerMessage.clearCache id =>
    ([], [{ rtype := RespType.cacheCleared, id := id, data := ResponseData.empty }])
  | WorkerMessage.cancel id =>
    (cache, [{
      rtype := RespType.cancelled
      id := id
      data := ResponseData.textMessage "Operation cancelled" }])
  | WorkerMessage.unknownType id t =>
    (cache, [{
      rtype := RespType.error
      id := id
      data := ResponseData.textMessage ("Unknown message type: " ++ t) }])

/-- The worker event loop over a queue of delivered messages: the worker is
single-threaded, so messages are handled one after another, each to
completion; the responses are concatenated in posting order. -/
def processQueue (rand : ℕ → ℚ) (cache : IrrCache) :
    List WorkerMessage → List WorkerResponse
  | [] => []
  | msg :: rest =>
    let step := handleMessage rand cache msg
    step.2 ++ processQueue rand step.1 rest

/-- The failing scenario of C2: a 5-chunk Monte Carlo run (5 simulations at
chunk size 1) for correlation id mc-1, with a cancel request for the same
id delivered while the run is in progress (the single-threaded worker can
only handle it after the full run). -/
def c2params : MonteCarloParams := {
  initialInvestment := 100
  timeHorizon := 1
  interestRate := 5
  propertyAppreciation := 3
  defaultRate := 1
  volatility := 2
  numSimulations := 5
  chunkSize := 1 }

/-- The message queue of the C2 scenario. -/
def c2queue : List WorkerMessage :=
  [WorkerMessage.monteCarlo (some "mc-1") c2params,
    WorkerMessage.cancel (some "mc-1")]

/-- A constant oracle for the stochastic draws. -/
def zeroRand : ℕ → ℚ := fun _ => 0

/-- C2: in the worker there is no cancellation check at chunk boundaries:
with a cancel request for id mc-1 delivered during a 5-chunk run, the
worker still posts all five chunk progress messages and the
monteCarloResults response for mc-1, and only then acknowledges the
cancellation.  The claimed behaviour (terminal response cancelled with no
monteCarloResults ever emitted for the id) does not hold. -/
theorem C2_no_cancellation_check :
    (processQueue zeroRand [] c2queue).map (fun r => (r.rtype, r.id)) =
      [(RespType.progress, some "mc-1"),
        (RespType.progress, none), (RespType.progress, none),
        (RespType.progress, none), (RespType.progress, none),
        (RespType.progress, none),
        (RespType.monteCarloResults, some "mc-1"),
        (RespType.cancelled, some "mc-1")] := by
  decide

/-! ### C3: parameter validation (spec-modelled)

The Parameter Validator and the Loan Portfolio Generator belong to the
Python simulation engine of the repository; only its documentation
(python_backend/simulation_engine/calculationsreadme.md) is among the
sources, so these components are modelled from the specification. -/

/-- Modelled from the spec: the structured validation error of the missing
Parameter Validator, naming the offending field and the violated
constraint. -/
structure ValidationError where
  field : String
  constraint : String
deriving DecidableEq, Repr

/-- Modelled from the spec: the validated parameter set of the missing
engine, with the documented defaults. -/
structure EngineParameters where
  initialInvestment : ℚ := 50000000
  interestRate : ℚ := 5
  propertyAppreciation : ℚ := 3
  defaultRate : ℚ := 1
  reinvestmentRate : ℚ := 70
  targetLtv : ℚ := 60
  avgTermLength : ℚ := 2
  initialDeploymentPeriod : ℚ := 3
  lastReinvestmentYear : ℚ := 7
  managementFee : ℚ := 2
  performanceFee : ℚ := 20
  hurdleRate : ℚ := 8
  upfrontFee : ℚ := 3
  timeHorizon : ℕ := 10
  volatility : ℚ := 2
  numSimulations : ℕ := 1000
  earlyRepaymentRate : ℚ := 15
  waterfallType : String := "european"
  zoneAllocation : List (String × ℚ) := [("green", 60), ("orange", 30), ("red", 10)]
  geographyAllocation : List (String × ℚ) :=
    [("sydney", 70), ("melbourne", 20), ("brisbane", 10)]

/-- Modelled from the spec: the percentage-valued scalar fields of the
parameter set, each required to lie in [0, 100]. -/
def percentFields (p : EngineParameters) : List (String × ℚ) :=
  [("interestRate", p.interestRate),
    ("propertyAppreciation", p.propertyAppreciation),
    ("defaultRate", p.defaultRate),
    ("reinvestmentRate", p.reinvestmentRate),
    ("targetLtv", p.targetLtv),
    ("managementFee", p.managementFee),
    ("performanceFee", p.performanceFee),
    ("hurdleRate", p.hurdleRate),
    ("upfrontFee", p.upfrontFee),
    ("volatility", p.volatility),
    ("earlyRepaymentRate", p.earlyRepaymentRate)]

/-- The total of an allocation map. -/
def allocSum (alloc : List (String × ℚ)) : ℚ := (alloc.map Prod.snd).sum

/-- Modelled from the spec: the missing Parameter Validator (spec 4.1):
every percentage field within range, both allocation maps summing to 100
(tolerance taken as exact), monetary fields positive; the first violation
is reported as a ValidationError naming field and constraint. -/
def validateParameters (p : EngineParameters) : Option ValidationError :=
  match (percentFields p).find? (fun f => decide (f.2 < 0) || decide (100 < f.2)) with
  | some f => some { field := f.1, constraint := "percentage out of range [0, 100]" }
  | none =>
    if allocSum p.zoneAllocation ≠ 100 then
      some { field := "zoneAllocation", constraint := "allocation must sum to 100" }
    else if allocSum p.geographyAllocation ≠ 100 then
      some { field := "geographyAllocation", constraint := "allocation must sum to 100" }
    else if p.initialInvestment ≤ 0 then
      some { field := "initialInvestment", constraint := "must be positive" }
    else none

/-- Modelled from the spec: a loan of the missing Loan Portfolio
Generator. -/
structure Loan where
  loanId : ℕ
  amount : ℚ
  zone : String
deriving DecidableEq, Repr

/-- Modelled from the spec: deterministic proportional zone assignment of
the missing generator; a loan at relative position pos (in percent) gets
the first zone whose cumulative allocation covers it. -/
def zonePick : List (String × ℚ) → ℚ → String
  | [], _ => ""
  | (z, pct) :: rest, pos => if pos < pct then z else zonePick rest (pos - pct)

/-- Modelled from the spec: the missing Loan Portfolio Generator (spec 4.2):
one loan per $1,000,000 of fund size, at least 10, of the average size,
zones assigned proportionally to the allocation percentages. -/
def generateLoans (p : EngineParameters) : List Loan :=
  let loanCount := max (Int.toNat (Int.floor (p.initialInvestment / 1000000))) 10
  let avgLoanSize := p.initialInvestment / (loanCount : ℚ)
  (List.range loanCount).map (fun i =>
    { loanId := i
      amount := avgLoanSize
      zone := zonePick p.zoneAllocation ((i : ℚ) * 100 / (loanCount : ℚ)) })

/-- Modelled from the spec: the missing engine pipeline; validation fails
fast, and loan generation runs only on validated parameters. -/
def runEngine (p : EngineParameters) : Except ValidationError (List Loan) :=
  match validateParameters p with
  | some e => Except.error e
  | none => Except.ok (generateLoans p)

/-- The field named by a validation error is indeed one the parameter set
violates. -/
def fieldViolation (p : EngineParameters) (name : String) : Prop :=
  (∃ f ∈ percentFields p, f.1 = name ∧ (f.2 < 0 ∨ 100 < f.2)) ∨
    (name = "zoneAllocation" ∧ allocSum p.zoneAllocation ≠ 100) ∨
    (name = "geographyAllocation" ∧ allocSum p.geographyAllocation ≠ 100)

/-- C3: a parameter set whose zone or geography allocation does not sum to
100, or with an out-of-range percentage field, makes the engine fail with a
structured validation error naming an offending field, and no loan is
generated (the pipeline returns the error instead of a loan book). -/
theorem C3_validation_fails_fast (p : EngineParameters)
    (h : (∃ f ∈ percentFields p, f.2 < 0 ∨ 100 < f.2) ∨
      allocSum p.zoneAllocation ≠ 100 ∨ allocSum p.geographyAllocation ≠ 100) :
    ∃ e, runEngine p = Except.error e ∧ fieldViolation p e.field := by
  unfold runEngine validateParameters
  rcases hfind : (percentFields p).find? (fun f => decide (f.2 < 0) || decide (100 < f.2))
    with _ | f
  · have hnone : ∀ f ∈ percentFields p, ¬(f.2 < 0 ∨ 100 < f.2) := by
      intro f hf
      have := List.find?_eq_none.1 hfind f hf
      simpa using this
    rcases h with hpct | hz | hg
    · obtain ⟨f, hf, hbad⟩ := hpct
      exact absurd hbad (hnone f hf)
    · refine ⟨ValidationError.mk "zoneAllocation" "allocation must sum to 100", ?_, ?_⟩
      · simp [hfind, hz]
      · exact Or.inr (Or.inl ⟨rfl, hz⟩)
    · by_cases hz : allocSum p.zoneAllocation ≠ 100
      · refine ⟨ValidationError.mk "zoneAllocation" "allocation must sum to 100", ?_, ?_⟩
        · simp [hfind, hz]
        · exact Or.inr (Or.inl ⟨rfl, hz⟩)
      · refine ⟨ValidationError.mk "geographyAllocation" "allocation must sum to 100",
          ?_, ?_⟩
        · simp [hfind, hz, hg]
        · exact Or.inr (Or.inr ⟨rfl, hg⟩)
  · refine ⟨ValidationError.mk f.1 "percentage out of range [0, 100]", ?_, ?_⟩
    · simp [hfind]
    · refine Or.inl ⟨f, List.mem_of_find?_eq_some hfind, rfl, ?_⟩
      have hpred := List.find?_some hfind
      simpa using hpred

/-- Witness for C3: the scenario allocation map green 60, orange 39, red 2
(sum 101). -/
def c3params : EngineParameters :=
  { zoneAllocation := [("green", 60), ("orange", 39), ("red", 2)] }

/-- Witness for C3: on the 101-percent zone allocation the engine fails
with a field-specific validation error before generating any loan. -/
theorem C3_witness :
    ∃ e, runEngine c3params = Except.error e ∧ fieldViolation c3params e.field :=
  C3_validation_fails_fast c3params (Or.inr (Or.inl (by decide)))
